import Mathlib

/-!
Verification development for the multi-header table extractor
(`excel_basic_functions.py`).

The file embeds the core of `from_excel_to_list_of_dataframes_multiple_headers`
and `clean_column_name` as executable Lean definitions and proves the spec's
claims about them.

Modelling conventions:
* a cell value is an element of an arbitrary type `α` with decidable equality
  (instantiated with `ℕ` in concrete examples);
* a row's comparison set (`set(row.dropna())`) is a `Finset α`;
* Python floats are modelled as exact rationals `ℚ`;
* a Python string is a `List Char` (`String` in table keys);
* `pandas` parsing of one table (`parse(sheet, header=hi, nrows=n)`) is
  modelled at the level of row indices: the header rows are the indices `hi`,
  and the data rows are the `n` row indices following the last header row
  (`nrows` in pandas counts data rows only, after the header rows have been
  consumed), or all remaining rows of the sheet when `n` is `None`.
-/

/-- Overlap percentage of two row sets, as computed at lines 76-78 of the
source: `(len(overlap) / len(universe)) * 100 if len(universe) else 100`. -/
def overlapPct {α : Type} [DecidableEq α] (a b : Finset α) : ℚ :=
  if (a ∪ b).card = 0 then 100
  else ((a ∩ b).card : ℚ) / ((a ∪ b).card : ℚ) * 100

/-- The per-template scan loop (source lines 70-90).  `i` is the current row
index (`row_idx`), `mc` the current `match_count`, `pending` the current
`potential_header_indices`, and the final argument the remaining row sets.
Returns the list of emitted matches (the `potential_header_indices` lists
appended to `header_ranges`), in emission order.  The reference-set lookup
`header_sets[match_count]` is guarded by `match_count < len(header_sets)` in
the source, so the `getD` default is never read under that guard. -/
def scanFrom {α : Type} [DecidableEq α] (hs : List (Finset α)) (thr : ℚ) :
    ℕ → ℕ → List ℕ → List (Finset α) → List (List ℕ)
  | _, _, _, [] => []
  | i, mc, pending, rs :: rest =>
    let st :=
      if mc < hs.length then
        if thr ≤ overlapPct rs (hs.getD mc ∅) then (mc + 1, pending ++ [i])
        else (0, ([] : List ℕ))
      else (mc, pending)
    if st.1 = hs.length then st.2 :: scanFrom hs thr (i + 1) 0 [] rest
    else scanFrom hs thr (i + 1) st.1 st.2 rest

/-- Scan one sheet's row sets against one template (`header_sets`), starting
from the initial state `match_count = 0`, `potential_header_indices = []`. -/
def scanSheet {α : Type} [DecidableEq α] (hs : List (Finset α)) (thr : ℚ)
    (rows : List (Finset α)) : List (List ℕ) :=
  scanFrom hs thr 0 0 [] rows

/-- The template loop of source lines 69-90: `header_ranges` accumulates the
matches of every template, in template order, then within-template emission
order.  A template is a (name, header row sets) pair. -/
def findHeaderRanges {α : Type} [DecidableEq α]
    (templates : List (String × List (Finset α))) (thr : ℚ)
    (rows : List (Finset α)) : List (List ℕ) :=
  templates.foldl (fun acc t => acc ++ scanSheet t.2 thr rows) []

/-- Region resolution (source lines 93-94): every match except the last gets
end row `header_ranges[i + 1][0][0] - 1`; the last keeps `None`.  The source
indexes `[0][0]` into the next match's index list, which is nonempty for every
emitted match; `headD 0` stands in for that always-valid index access. -/
def resolveRegions : List (List ℕ) → List (List ℕ × Option ℤ)
  | [] => []
  | [x] => [(x, none)]
  | x :: y :: rest => (x, some ((y.headD 0 : ℤ) - 1)) :: resolveRegions (y :: rest)

/-- The row-count computation of source line 99:
`nrows = (end_row - start_row + 1) if end_row else None`.
Both `None` and `0` are falsy in Python, so an `end_row` of `0` also yields
`None` (an unbounded parse). -/
def nrowsOf (startRow : ℕ) (endRow : Option ℤ) : Option ℤ :=
  match endRow with
  | none => none
  | some e => if e = 0 then none else some (e - (startRow : ℤ) + 1)

/-- Row-index model of `excel_workbook.parse(sheet_name, header=hi, nrows=n)`
(source line 100) on a sheet with `L` rows: the rows listed in `hi` become the
header; the data rows are the rows after the last header row, of which pandas
keeps `n` (`nrows` counts data rows, the header rows having been consumed
first), or all of them when `n` is `None`.  Returns (header row indices,
data row indices). -/
def parseRows (L : ℕ) (hi : List ℕ) (n : Option ℤ) : List ℕ × List ℕ :=
  let ds := hi.getLast?.getD 0 + 1
  let avail := L - ds
  let cnt := match n with
    | none => avail
    | some k => min k.toNat avail
  (hi, List.range' ds cnt)

/-- Per-sheet extraction (source lines 56-107, for one sheet): find all header
ranges, resolve regions, and materialize each region as a table keyed
`f"{sheet_name}_table_{index}"` with `index` counting from 1
(`enumerate(header_ranges, start=1)`), `start_row = header_indices[0]`. -/
def extractSheet {α : Type} [DecidableEq α]
    (templates : List (String × List (Finset α))) (thr : ℚ)
    (rows : List (Finset α)) (sheetName : String) :
    List (String × (List ℕ × List ℕ)) :=
  let regions := resolveRegions (findHeaderRanges templates thr rows)
  regions.enum.map fun p =>
    (sheetName ++ "_table_" ++ toString (p.1 + 1),
     parseRows rows.length p.2.1 (nrowsOf (p.2.1.headD 0) p.2.2))

/-- Whole-workbook extraction: the sheet loop of source lines 56-107, mapping
each sheet name to its extracted table collection. -/
def extractWorkbook {α : Type} [DecidableEq α]
    (templates : List (String × List (Finset α))) (thr : ℚ)
    (sheets : List (String × List (Finset α))) :
    List (String × List (String × (List ℕ × List ℕ))) :=
  sheets.map fun s => (s.1, extractSheet templates thr s.2 s.1)

/-- The fixed special-character set of source line 5,
`"!@#$%^&*()_+={}[]|\\:;'\"<>,.?/~` + backtick + `"` (braces, both quotes and
the backtick written via their code points). -/
def specialChars : List Char :=
  ['!', '@', '#', '$', '%', '^', '&', '*', '(', ')', '_', '+', '=',
   Char.ofNat 123, Char.ofNat 125, '[', ']', '|', '\\', ':', ';',
   Char.ofNat 39, Char.ofNat 34, '<', '>', ',', '.', '?', '/', '~',
   Char.ofNat 96]

/-- Python `str.strip()` whitespace, restricted to the ASCII whitespace
characters: space, tab, newline, carriage return, vertical tab, form feed. -/
def isWs (c : Char) : Bool :=
  c = ' ' || c = Char.ofNat 9 || c = Char.ofNat 10 || c = Char.ofNat 13 ||
  c = Char.ofNat 11 || c = Char.ofNat 12

/-- Removal of leading whitespace (the left half of `str.strip()`). -/
def lstrip (l : List Char) : List Char := l.dropWhile isWs

/-- Removal of trailing whitespace (the right half of `str.strip()`). -/
def rstrip : List Char → List Char
  | [] => []
  | c :: t =>
    match rstrip t with
    | [] => if isWs c then [] else [c]
    | r => c :: r

/-- Python `str.strip()`: drop whitespace at both ends. -/
def pyStrip (l : List Char) : List Char := rstrip (lstrip l)

/-- The sequential `column_name.replace(char, "")` loop of source lines 23-24:
each character of `specialChars` is removed (all its occurrences) in turn. -/
def removeAll (l : List Char) : List Char :=
  specialChars.foldl (fun acc c => acc.filter fun d => d ≠ c) l

/-- `leadsWith p l` is true when `p` is an initial segment of `l`. -/
def leadsWith : List Char → List Char → Bool
  | [], _ => true
  | _ :: _, [] => false
  | p :: ps, c :: cs => p = c && leadsWith ps cs

/-- `hasSub p l` is true when `p` occurs as a contiguous substring of `l`
(Python's `p in l`). -/
def hasSub (p : List Char) : List Char → Bool
  | [] => leadsWith p []
  | c :: rest => leadsWith p (c :: rest) || hasSub p rest

/-- Whether the two-character separator `", "` occurs in the string. -/
def hasCS : List Char → Bool
  | [] => false
  | [_] => false
  | a :: b :: rest => (a = ',' && b = ' ') || hasCS (b :: rest)

/-- Python `s.split(", ")[-1]`: the suffix after the last occurrence of the
separator `", "` (the whole string when the separator does not occur).
Occurrences of `", "` cannot overlap, so scanning left to right and keeping
the final segment agrees with `str.split`. -/
def lastSeg : List Char → List Char
  | [] => []
  | [c] => [c]
  | a :: b :: rest =>
    if a = ',' && b = ' ' then lastSeg rest
    else if hasCS (b :: rest) then lastSeg (b :: rest)
    else a :: b :: rest

/-- The marker `"Unnamed"` tested by `if 'Unnamed' in column_name`. -/
def unnamedMarker : List Char := ['U', 'n', 'n', 'a', 'm', 'e', 'd']

/-- `clean_column_name` (source lines 10-25): take the last `", "`-separated
segment when the label contains `"Unnamed"`, remove every special character,
then strip surrounding whitespace. -/
def clean_column_name (cn : List Char) : List Char :=
  pyStrip (removeAll (if hasSub unnamedMarker cn then lastSeg cn else cn))

/-- The placeholder label `f"Unnamed_{i}"` of source line 103. -/
def unnamedLabel (i : ℕ) : List Char :=
  "Unnamed_".toList ++ (toString i).toList

/-- The column-relabelling expression of source line 103 for the column at
position `i`: `clean_column_name(str(col)) if str(col) else f"Unnamed_{i}"`.
The emptiness test is applied to the raw stringified label, before
cleaning. -/
def relabel (i : ℕ) (col : List Char) : List Char :=
  if col ≠ [] then clean_column_name col else unnamedLabel i

/-- Helper: `A ∩ B = A ∪ B` exactly when `A = B`. -/
lemma inter_eq_union_iff {α : Type} [DecidableEq α] (A B : Finset α) :
    A ∩ B = A ∪ B ↔ A = B := by
  constructor
  · intro h
    apply Finset.Subset.antisymm
    · exact fun a ha =>
        (Finset.mem_inter.mp (h ▸ Finset.mem_union_left B ha)).2
    · exact fun a ha =>
        (Finset.mem_inter.mp (h ▸ Finset.mem_union_right A ha)).1
  · intro h
    rw [h, Finset.inter_self, Finset.union_self]

/-- C5: the overlap percentage is `|A ∩ B| / |A ∪ B| * 100` (with value `100`
for an empty union), is symmetric, equals `100` iff `A = B` (including both
empty), and equals `0` iff the intersection is empty while at least one of the
two sets is not. -/
theorem c5_overlap_properties {α : Type} [DecidableEq α] (A B : Finset α) :
    overlapPct A B = overlapPct B A ∧
    (A ∪ B = ∅ → overlapPct A B = 100) ∧
    (A ∪ B ≠ ∅ →
      overlapPct A B = ((A ∩ B).card : ℚ) / ((A ∪ B).card : ℚ) * 100) ∧
    (overlapPct A B = 100 ↔ A = B) ∧
    (overlapPct A B = 0 ↔ A ∩ B = ∅ ∧ (A ≠ ∅ ∨ B ≠ ∅)) := by
  refine ⟨?_, ?_, ?_, ?_, ?_⟩
  · unfold overlapPct
    rw [Finset.union_comm, Finset.inter_comm]
  · intro h
    unfold overlapPct
    rw [if_pos (Finset.card_eq_zero.mpr h)]
  · intro h
    unfold overlapPct
    rw [if_neg fun hc => h (Finset.card_eq_zero.mp hc)]
  · by_cases hu : (A ∪ B).card = 0
    · obtain ⟨hA, hB⟩ := Finset.union_eq_empty.mp (Finset.card_eq_zero.mp hu)
      unfold overlapPct
      rw [if_pos hu]
      simp [hA, hB]
    · unfold overlapPct
      rw [if_neg hu]
      have hcast : ((A ∪ B).card : ℚ) ≠ 0 := Nat.cast_ne_zero.mpr hu
      constructor
      · intro h
        have h1 : ((A ∩ B).card : ℚ) / ((A ∪ B).card : ℚ) = 1 := by
          have h100 : ((A ∩ B).card : ℚ) / ((A ∪ B).card : ℚ) * 100 = 1 * 100 := by
            rw [h, one_mul]
          exact mul_right_cancel₀ (by norm_num) h100
        have h2 : (A ∩ B).card = (A ∪ B).card :=
          Nat.cast_inj.mp ((div_eq_one_iff_eq hcast).mp h1)
        exact (inter_eq_union_iff A B).mp
          (Finset.eq_of_subset_of_card_le Finset.inter_subset_union h2.ge)
      · intro h
        have h2 : A ∩ B = A ∪ B := (inter_eq_union_iff A B).mpr h
        rw [h2, div_self hcast, one_mul]
  · by_cases hu : (A ∪ B).card = 0
    · obtain ⟨hA, hB⟩ := Finset.union_eq_empty.mp (Finset.card_eq_zero.mp hu)
      unfold overlapPct
      rw [if_pos hu]
      constructor
      · intro h; norm_num at h
      · rintro ⟨-, h | h⟩ <;> [exact absurd hA h; exact absurd hB h]
    · unfold overlapPct
      rw [if_neg hu]
      have hcast : ((A ∪ B).card : ℚ) ≠ 0 := Nat.cast_ne_zero.mpr hu
      have hne : A ≠ ∅ ∨ B ≠ ∅ := by
        rcases not_and_or.mp (fun hc => hu (Finset.card_eq_zero.mpr
          (Finset.union_eq_empty.mpr hc))) with h | h
        · exact Or.inl h
        · exact Or.inr h
      constructor
      · intro h
        rcases mul_eq_zero.mp h with h0 | h0
        · rcases div_eq_zero_iff.mp h0 with h1 | h1
          · exact ⟨Finset.card_eq_zero.mp (Nat.cast_eq_zero.mp h1), hne⟩
          · exact absurd h1 hcast
        · norm_num at h0
      · rintro ⟨h, -⟩
        rw [h, Finset.card_empty, Nat.cast_zero, zero_div, zero_mul]

/-- C5 witness: the properties instantiated at `A = B = {1}` and at the
disjoint pair `{1}, {2}`. -/
theorem c5_overlap_properties_witness :
    overlapPct ({1} : Finset ℕ) {1} = 100 ∧
    overlapPct ({1} : Finset ℕ) {2} = 0 :=
  ⟨(c5_overlap_properties ({1} : Finset ℕ) {1}).2.2.2.1.mpr rfl,
   (c5_overlap_properties ({1} : Finset ℕ) {2}).2.2.2.2.mpr (by decide)⟩

/-- C8: against the empty template row, the overlap of an empty sheet row is
`100` (empty-union rule) and of a non-empty sheet row is `0`; so at any
threshold in the configured range `(0, 100]` exactly the empty sheet rows
pass, and for `t ≥ 0` a non-empty row passes only when the threshold is 0. -/
theorem c8_empty_template_row {α : Type} [DecidableEq α] (S : Finset α) (t : ℚ) :
    overlapPct (∅ : Finset α) ∅ = 100 ∧
    (S ≠ ∅ → overlapPct S ∅ = 0) ∧
    (0 < t → t ≤ 100 → ((t ≤ overlapPct S ∅) ↔ S = ∅)) ∧
    (0 ≤ t → S ≠ ∅ → ((t ≤ overlapPct S ∅) ↔ t = 0)) := by
  have hval : overlapPct S ∅ = if S.card = 0 then 100 else 0 := by
    unfold overlapPct
    rw [Finset.union_empty, Finset.inter_empty]
    by_cases h : S.card = 0
    · rw [if_pos h, if_pos h]
    · rw [if_neg h, if_neg h, Finset.card_empty, Nat.cast_zero, zero_div,
        zero_mul]
  have hempty : overlapPct (∅ : Finset α) ∅ = 100 := by
    unfold overlapPct
    rw [Finset.union_empty, Finset.card_empty, if_pos rfl]
  refine ⟨hempty, ?_, ?_, ?_⟩
  · intro hS
    rw [hval, if_neg fun hc => hS (Finset.card_eq_zero.mp hc)]
  · intro ht0 ht100
    rw [hval]
    by_cases h : S.card = 0
    · rw [if_pos h]
      exact ⟨fun _ => Finset.card_eq_zero.mp h, fun _ => ht100⟩
    · rw [if_neg h]
      exact ⟨fun hle => absurd (lt_of_lt_of_le ht0 hle) (lt_irrefl 0),
             fun he => absurd (Finset.card_eq_zero.mpr he) h⟩
  · intro ht0 hS
    rw [hval, if_neg fun hc => hS (Finset.card_eq_zero.mp hc)]
    exact ⟨fun hle => le_antisymm hle ht0, fun he => he.le⟩

/-- C8 witness: at `S = {1}`, `t = 50` the non-empty row scores `0` and fails
the threshold. -/
theorem c8_empty_template_row_witness :
    overlapPct ({1} : Finset ℕ) ∅ = 0 ∧ ¬((50 : ℚ) ≤ overlapPct ({1} : Finset ℕ) ∅) :=
  ⟨(c8_empty_template_row ({1} : Finset ℕ) 50).2.1 (by decide),
   fun h => by
    have := ((c8_empty_template_row ({1} : Finset ℕ) 50).2.2.1 (by norm_num)
      (by norm_num)).mp h
    exact absurd this (by decide)⟩

/-- Helper: membership in the result of the special-character removal fold
implies membership in the input and absence from the removed set. -/
lemma mem_foldl_filter (sp : List Char) :
    ∀ (l : List Char) (c : Char),
      c ∈ sp.foldl (fun acc s => acc.filter fun d => d ≠ s) l →
      c ∈ l ∧ ∀ s ∈ sp, c ≠ s := by
  induction sp with
  | nil => exact fun l c h => ⟨h, by simp⟩
  | cons s sp ih =>
    intro l c h
    rw [List.foldl_cons] at h
    obtain ⟨hmem, hrest⟩ := ih _ c h
    rw [List.mem_filter] at hmem
    refine ⟨hmem.1, ?_⟩
    intro s' hs'
    rcases List.mem_cons.mp hs' with rfl | hs'
    · exact of_decide_eq_true hmem.2
    · exact hrest s' hs'

/-- Helper: the special-character removal fold fixes inputs containing none of
the characters being removed. -/
lemma foldl_filter_id (sp : List Char) :
    ∀ l : List Char, (∀ s ∈ sp, s ∉ l) →
      sp.foldl (fun acc s => acc.filter fun d => d ≠ s) l = l := by
  induction sp with
  | nil => exact fun l _ => rfl
  | cons s sp ih =>
    intro l hl
    rw [List.foldl_cons]
    have hfix : l.filter (fun d => d ≠ s) = l :=
      List.filter_eq_self.mpr fun a ha =>
        decide_eq_true fun he => hl s (List.mem_cons_self s sp) (he ▸ ha)
    rw [hfix]
    exact ih l fun s' hs' => hl s' (List.mem_cons_of_mem s hs')

/-- Helper: `rstrip` only deletes characters. -/
lemma mem_rstrip {c : Char} : ∀ {l : List Char}, c ∈ rstrip l → c ∈ l := by
  intro l
  induction l with
  | nil => exact fun h => h
  | cons a t ih =>
    intro h
    rw [rstrip] at h
    rcases he : rstrip t with _ | ⟨r, rs⟩
    · rw [he] at h
      by_cases hw : isWs a
      · rw [if_pos hw] at h
        exact absurd h (List.not_mem_nil c)
      · rw [if_neg hw] at h
        rcases List.mem_singleton.mp h with rfl
        exact List.mem_cons_self _ _
    · rw [he] at h
      rcases List.mem_cons.mp h with rfl | h
      · exact List.mem_cons_self _ _
      · exact List.mem_cons_of_mem a (ih (he ▸ h))

/-- Helper: `pyStrip` only deletes characters. -/
lemma mem_pyStrip {c : Char} {l : List Char} (h : c ∈ pyStrip l) : c ∈ l :=
  (List.dropWhile_sublist isWs).subset (mem_rstrip h)

/-- Helper: `rstrip` is idempotent. -/
lemma rstrip_idem : ∀ l : List Char, rstrip (rstrip l) = rstrip l := by
  intro l
  induction l with
  | nil => rfl
  | cons a t ih =>
    rw [rstrip]
    rcases he : rstrip t with _ | ⟨r, rs⟩
    · by_cases hw : isWs a
      · rw [if_pos hw]; rfl
      · rw [if_neg hw, rstrip, rstrip, if_neg hw]
    · rw [rstrip, ← he, ih, he]

/-- Helper: a list fixed by `lstrip` is still fixed by `lstrip` after
`rstrip`. -/
lemma lstrip_rstrip {l : List Char} (h : lstrip l = l) :
    lstrip (rstrip l) = rstrip l := by
  cases l with
  | nil => rfl
  | cons a t =>
    have hw : isWs a = false := by
      by_cases hw : isWs a
      · exfalso
        rw [lstrip, List.dropWhile_cons, if_pos hw] at h
        have := congrArg List.length h
        have hle := (List.dropWhile_sublist (l := t) isWs).length_le
        simp at this
        omega
      · exact eq_false_of_ne_true hw
    rw [rstrip]
    rcases rstrip t with _ | ⟨r, rs⟩
    · by_cases hw2 : isWs a
      · rw [hw] at hw2; exact absurd hw2 (by simp)
      · rw [if_neg hw2, lstrip, List.dropWhile_cons, hw]
        rfl
    · rw [lstrip, List.dropWhile_cons, hw]
      rfl

/-- Helper: `pyStrip` is idempotent. -/
lemma pyStrip_idem (l : List Char) : pyStrip (pyStrip l) = pyStrip l := by
  unfold pyStrip
  have h1 : lstrip (lstrip l) = lstrip l := by
    unfold lstrip
    exact List.dropWhile_idempotent isWs l
  rw [lstrip_rstrip h1, rstrip_idem]

/-- Helper: `hasCS` is false on comma-free strings. -/
lemma hasCS_of_no_comma : ∀ l : List Char, ',' ∉ l → hasCS l = false := by
  intro l
  induction l with
  | nil => exact fun _ => rfl
  | cons a t ih =>
    intro h
    cases t with
    | nil => rfl
    | cons b rest =>
      rw [hasCS]
      have ha : (a = ',') = False := by
        simp only [eq_iff_iff, iff_false]
        exact fun he => h (he ▸ List.mem_cons_self a _)
      rw [Bool.or_eq_false_iff]
      constructor
      · rw [Bool.and_eq_false_iff]
        left
        exact decide_eq_false (by simp [ha])
      · exact ih fun hc => h (List.mem_cons_of_mem a hc)

/-- Helper: `lastSeg` fixes comma-free strings. -/
lemma lastSeg_of_no_comma : ∀ l : List Char, ',' ∉ l → lastSeg l = l := by
  intro l h
  match l with
  | [] => rfl
  | [c] => rfl
  | a :: b :: rest =>
    rw [lastSeg]
    have ha : ¬(a = ',' && b = ' ') = true := by
      intro hc
      rw [Bool.and_eq_true] at hc
      exact h ((of_decide_eq_true hc.1) ▸ List.mem_cons_self a _)
    rw [if_neg ha,
      hasCS_of_no_comma (b :: rest) fun hc => h (List.mem_cons_of_mem a hc)]
    rfl

/-- C6: `clean_column_name` is a pure total function and is idempotent:
cleaning an already-cleaned label returns it unchanged. -/
theorem c6_clean_idempotent (cn : List Char) :
    clean_column_name (clean_column_name cn) = clean_column_name cn := by
  have hspec : ∀ s ∈ specialChars, s ∉ clean_column_name cn := by
    intro s hs hmem
    unfold clean_column_name at hmem
    exact (mem_foldl_filter specialChars _ s (mem_pyStrip hmem)).2 s hs rfl
  have hcomma : ',' ∉ clean_column_name cn :=
    hspec ',' (by decide)
  conv_lhs => rw [clean_column_name]
  have hstep :
      (if hasSub unnamedMarker (clean_column_name cn) then
        lastSeg (clean_column_name cn)
      else clean_column_name cn) = clean_column_name cn := by
    by_cases h : hasSub unnamedMarker (clean_column_name cn) = true
    · rw [if_pos h]
      exact lastSeg_of_no_comma _ hcomma
    · rw [if_neg h]
  rw [hstep]
  have hrem : removeAll (clean_column_name cn) = clean_column_name cn :=
    foldl_filter_id specialChars _ hspec
  rw [hrem]
  conv_lhs => rw [clean_column_name]
  exact pyStrip_idem _

/-- Step equation: a passing row that completes the template emits the pending
indices (with the current row appended) and resets the state. -/
lemma scanFrom_step_emit {α : Type} [DecidableEq α] {hs : List (Finset α)}
    {thr : ℚ} {i mc : ℕ} {pending : List ℕ} {rs : Finset α}
    {rest : List (Finset α)} (h1 : mc < hs.length)
    (h2 : thr ≤ overlapPct rs (hs.getD mc ∅)) (h3 : mc + 1 = hs.length) :
    scanFrom hs thr i mc pending (rs :: rest) =
      (pending ++ [i]) :: scanFrom hs thr (i + 1) 0 [] rest := by
  rw [scanFrom]
  simp only [if_pos h1, if_pos h2, if_pos h3]

/-- Step equation: a passing row that does not yet complete the template
appends the row index and increments the match counter. -/
lemma scanFrom_step_pass {α : Type} [DecidableEq α] {hs : List (Finset α)}
    {thr : ℚ} {i mc : ℕ} {pending : List ℕ} {rs : Finset α}
    {rest : List (Finset α)} (h1 : mc < hs.length)
    (h2 : thr ≤ overlapPct rs (hs.getD mc ∅)) (h3 : mc + 1 ≠ hs.length) :
    scanFrom hs thr i mc pending (rs :: rest) =
      scanFrom hs thr (i + 1) (mc + 1) (pending ++ [i]) rest := by
  rw [scanFrom]
  simp only [if_pos h1, if_pos h2, if_neg h3]

/-- Step equation: a failing row resets the match counter and discards the
pending indices. -/
lemma scanFrom_step_fail {α : Type} [DecidableEq α] {hs : List (Finset α)}
    {thr : ℚ} {i mc : ℕ} {pending : List ℕ} {rs : Finset α}
    {rest : List (Finset α)} (h1 : mc < hs.length)
    (h2 : ¬thr ≤ overlapPct rs (hs.getD mc ∅)) (h3 : (0 : ℕ) ≠ hs.length) :
    scanFrom hs thr i mc pending (rs :: rest) =
      scanFrom hs thr (i + 1) 0 [] rest := by
  rw [scanFrom]
  simp only [if_pos h1, if_neg h2, if_neg h3]

/-- Soundness invariant of the scan loop: starting from any reachable state
(`pending` a run of consecutive indices ending just before row `i`, each of
which passed its threshold check), every emitted match is a run of
`hs.length` consecutive row indices inside the sheet, each of which passed
the threshold check against its template row. -/
lemma scanFrom_sound {α : Type} [DecidableEq α] (hs : List (Finset α))
    (thr : ℚ) (allRows : List (Finset α)) :
    ∀ (rows : List (Finset α)) (i mc : ℕ) (pending : List ℕ),
      rows = allRows.drop i → mc < hs.length → mc ≤ i →
      pending = List.range' (i - mc) mc →
      (∀ k, k < mc →
        thr ≤ overlapPct (allRows.getD (i - mc + k) ∅) (hs.getD k ∅)) →
      ∀ m ∈ scanFrom hs thr i mc pending rows,
        ∃ s, m = List.range' s hs.length ∧ s + hs.length ≤ allRows.length ∧
          ∀ k, k < hs.length →
            thr ≤ overlapPct (allRows.getD (s + k) ∅) (hs.getD k ∅) := by
  intro rows
  induction rows with
  | nil =>
    intro i mc pending _ _ _ _ _ m hm
    exact absurd hm (List.not_mem_nil m)
  | cons rs rest ih =>
    intro i mc pending hdrop hmc hmci hpend hthr m hm
    have hi : i < allRows.length := by
      rcases Nat.lt_or_ge i allRows.length with h | h
      · exact h
      · rw [List.drop_eq_nil_iff.mpr h] at hdrop
        exact absurd hdrop (List.cons_ne_nil rs rest)
    have hsplit := List.drop_eq_getElem_cons hi
    rw [← hdrop] at hsplit
    injection hsplit with hrs hrest
    have hgetd : allRows.getD i ∅ = rs := by
      rw [List.getD_eq_getElem allRows ∅ hi, hrs]
    have hlenpos : (0 : ℕ) ≠ hs.length :=
      fun h0 => absurd (h0 ▸ hmc) (Nat.not_lt_zero mc)
    have hrange : pending ++ [i] = List.range' (i - mc) (mc + 1) := by
      rw [hpend, List.range'_concat]
      have : i - mc + 1 * mc = i := by omega
      rw [this]
    by_cases h2 : thr ≤ overlapPct rs (hs.getD mc ∅)
    · by_cases h3 : mc + 1 = hs.length
      · rw [scanFrom_step_emit hmc h2 h3] at hm
        rcases List.mem_cons.mp hm with rfl | hm'
        · refine ⟨i - mc, ?_, by omega, ?_⟩
          · rw [hrange, h3]
          · intro k hk
            rcases Nat.lt_or_ge k mc with hkmc | hkmc
            · exact hthr k hkmc
            · have hkeq : k = mc := by omega
              rw [hkeq]
              have hidx : i - mc + mc = i := by omega
              rw [hidx, hgetd]
              exact h2
        · exact ih (i + 1) 0 [] (by rw [hrest])
            (Nat.pos_of_ne_zero fun h0 => hlenpos h0.symm) (Nat.zero_le _)
            (by rw [List.range'_zero]) (fun k hk => absurd hk (Nat.not_lt_zero k))
            m hm'
      · rw [scanFrom_step_pass hmc h2 h3] at hm
        have hmc' : mc + 1 < hs.length := lt_of_le_of_ne hmc h3
        refine ih (i + 1) (mc + 1) (pending ++ [i]) (by rw [hrest]) hmc'
          (by omega) ?_ ?_ m hm
        · rw [hrange]
          congr 1
          omega
        · intro k hk
          have hbase : i + 1 - (mc + 1) = i - mc := by omega
          rw [hbase]
          rcases Nat.lt_or_ge k mc with hkmc | hkmc
          · exact hthr k hkmc
          · have hkeq : k = mc := by omega
            rw [hkeq]
            have hidx : i - mc + mc = i := by omega
            rw [hidx, hgetd]
            exact h2
    · rw [scanFrom_step_fail hmc h2 hlenpos] at hm
      exact ih (i + 1) 0 [] (by rw [hrest]) (Nat.pos_of_ne_zero fun h0 =>
          hlenpos h0.symm) (Nat.zero_le _) (by rw [List.range'_zero])
        (fun k hk => absurd hk (Nat.not_lt_zero k)) m hm

/-- C1: every match emitted by the header-matching scan of a (nonempty)
template against a sheet consists of strictly consecutive sheet row indices,
in row order, of length equal to the template's RowSet count, lying inside
the sheet, and each recorded row passed the `≥ threshold` overlap test
against the template row at its position; matches are emitted exactly when
`match_count` reaches the template length, after which the state resets (the
reset is witnessed by the step equations used in the proof and by the
possibility of further matches later in the sheet). -/
theorem c1_scan_state_machine {α : Type} [DecidableEq α]
    (hs rows : List (Finset α)) (thr : ℚ) (hne : hs ≠ [])
    (m : List ℕ) (hm : m ∈ scanSheet hs thr rows) :
    ∃ s, m = List.range' s hs.length ∧ s + hs.length ≤ rows.length ∧
      ∀ k, k < hs.length →
        thr ≤ overlapPct (rows.getD (s + k) ∅) (hs.getD k ∅) :=
  scanFrom_sound hs thr rows rows 0 0 [] rfl (List.length_pos.mpr hne)
    (Nat.le_refl 0) rfl (fun k hk => absurd hk (Nat.not_lt_zero k)) m hm

/-- C1 witness: the match `[3, 4]` found by a two-row template at threshold
50 is a consecutive run of length 2 whose rows both passed the test. -/
theorem c1_scan_state_machine_witness :
    ∃ s, [3, 4] = List.range' s ([({1, 2} : Finset ℕ), {3, 4}]).length ∧
      s + ([({1, 2} : Finset ℕ), {3, 4}]).length ≤
        ([({9} : Finset ℕ), {9}, {9}, {1, 2}, {3, 4}, {9}]).length ∧
      ∀ k, k < ([({1, 2} : Finset ℕ), {3, 4}]).length →
        (50 : ℚ) ≤ overlapPct
          (([({9} : Finset ℕ), {9}, {9}, {1, 2}, {3, 4}, {9}]).getD (s + k) ∅)
          (([({1, 2} : Finset ℕ), {3, 4}]).getD k ∅) :=
  c1_scan_state_machine [{1, 2}, {3, 4}]
    [{9}, {9}, {9}, {1, 2}, {3, 4}, {9}] 50 (by decide) [3, 4]
    (by with_unfolding_all decide)

/-- C2: with template `[H1, H2]` (`H1 = {1,2}`, `H2 = {3,4}`) and threshold
50, a sheet whose rows 3, 4 satisfy `H1, H2` in order yields the single
match `[3, 4]`; if row 4 instead fails the `H2` check, no match is emitted
and row 4 is not retried as a new start within the same step, even though row
4's set `{1, 2}` independently satisfies `H1` (third conjunct) — so even a
subsequent row satisfying `H2` produces no match. -/
theorem c2_match_and_reset_example :
    scanSheet [({1, 2} : Finset ℕ), {3, 4}] 50
        [{9}, {9}, {9}, {1, 2}, {3, 4}, {9}] = [[3, 4]] ∧
    scanSheet [({1, 2} : Finset ℕ), {3, 4}] 50
        [{9}, {9}, {9}, {1, 2}, {1, 2}, {3, 4}] = [] ∧
    (50 : ℚ) ≤ overlapPct ({1, 2} : Finset ℕ) {1, 2} := by
  refine ⟨?_, ?_, ?_⟩ <;> with_unfolding_all decide

/-- Helper: positional description of region resolution — entry `i` pairs
match `i` with end row `first index of match i+1, minus 1`, and the final
entry keeps `none`. -/
lemma resolveRegions_pairing :
    ∀ (hr : List (List ℕ)) (i : ℕ),
      (resolveRegions hr).getD i ([], none) =
        (hr.getD i [],
         if i + 1 < hr.length then
           some (((hr.getD (i + 1) []).headD 0 : ℤ) - 1)
         else none) := by
  intro hr
  induction hr with
  | nil => intro i; cases i <;> simp [resolveRegions]
  | cons x t ih =>
    intro i
    cases t with
    | nil =>
      cases i with
      | zero => simp [resolveRegions]
      | succ j => simp [resolveRegions]
    | cons y rest =>
      cases i with
      | zero => simp [resolveRegions]
      | succ j =>
        rw [resolveRegions]
        simp only [List.getD_cons_succ, List.length_cons, ih j]
        simp [Nat.succ_lt_succ_iff]

/-- C3: region resolution pairs each match with the next one — region `i`
runs from its first matched row to the next match's first row minus one, the
last region staying unbounded — and on the sheet with `Template_A` matching
rows [0, 1] and `Template_B` matching row [5] at threshold 50 it produces
exactly the two ordered regions `([0,1], end 4)` and `([5], unbounded)`. -/
theorem c3_region_pairing :
    (∀ (hr : List (List ℕ)) (i : ℕ),
      (resolveRegions hr).getD i ([], none) =
        (hr.getD i [],
         if i + 1 < hr.length then
           some (((hr.getD (i + 1) []).headD 0 : ℤ) - 1)
         else none)) ∧
    resolveRegions (findHeaderRanges
        [("Template_A", [({1, 2} : Finset ℕ), {3, 4}]),
         ("Template_B", [{5, 6}])] 50
        [{1, 2}, {3, 4}, {7}, {7}, {7}, {5, 6}]) =
      [([0, 1], some 4), ([5], none)] :=
  ⟨resolveRegions_pairing, by with_unfolding_all decide⟩

/-- C4 (failing-input evaluation): on the 6-row sheet whose rows 0-1 match
the two-row template `T1` and whose row 4 matches the one-row template `T2`
at threshold 50, the extraction produces the two expected keys, but table 1
materializes data rows `[2, 3, 4, 5]`, not `[2, 3]`: the code passes the
region height `end_row - start_row + 1 = 4` as the pandas `nrows`, which
counts only data rows after the header, so table 1 overruns its region to the
sheet end and overlaps table 2 instead of stopping at row 3. -/
theorem c4_region_overrun_evaluation :
    extractSheet [("T1", [({1, 2} : Finset ℕ), {3, 4}]), ("T2", [{5, 6}])] 50
        [{1, 2}, {3, 4}, {7}, {8}, {5, 6}, {9}] "sheet" =
      [("sheet_table_1", ([0, 1], [2, 3, 4, 5])),
       ("sheet_table_2", ([4], [5]))] ∧
    ([2, 3, 4, 5] : List ℕ) ≠ [2, 3] := by
  refine ⟨?_, ?_⟩ <;> with_unfolding_all decide

/-- C7: with an empty reference template document (no templates), the
extraction maps every sheet of the workbook to an empty table collection. -/
theorem c7_empty_reference_empty_tables {α : Type} [DecidableEq α] (thr : ℚ)
    (sheets : List (String × List (Finset α))) :
    extractWorkbook [] thr sheets = sheets.map fun s => (s.1, []) := rfl

/-- C9 counterexample: for the non-empty raw label `"!"`, cleaning produces
the empty label, yet the relabelling expression keeps that empty cleaned
label instead of substituting the placeholder `Unnamed_0` — the emptiness
guard on source line 103 tests the raw label, not the cleaned result. -/
theorem c9_counterexample_raw_guard :
    clean_column_name ['!'] = [] ∧ relabel 0 ['!'] ≠ unnamedLabel 0 := by
  refine ⟨?_, ?_⟩ <;> with_unfolding_all decide

/-- C9 (amended): the placeholder `Unnamed_<position>` is substituted exactly
when the raw stringified label is empty; a non-empty raw label is always
replaced by its cleaned form, even when that cleaned form is empty. -/
theorem c9_amended_raw_label_guard (i : ℕ) (col : List Char) :
    (col = [] → relabel i col = unnamedLabel i) ∧
    (col ≠ [] → relabel i col = clean_column_name col) := by
  constructor
  · intro h
    rw [relabel, if_neg (not_not_intro h)]
  · intro h
    rw [relabel, if_pos h]

/-- C9 witness: at position 0 with the non-empty raw label `"!"`, the cleaned
(empty) label is used. -/
theorem c9_amended_raw_label_guard_witness :
    relabel 0 ['!'] = clean_column_name ['!'] :=
  (c9_amended_raw_label_guard 0 ['!']).2 (by decide)

/-- C10: the bounded/unbounded decision of source line 99 tests `end_row` for
falsiness, so a resolved end row of `0` (a header at row 0 immediately
followed by the next match at row 1) yields `nrows = None` exactly like a
missing end row, and the concrete sheet shows the resulting table 1 being
materialized unbounded — its data runs to the sheet end `[1, 2, 3]` instead
of stopping at row 0. -/
theorem c10_zero_end_row_unbounded :
    (∀ s : ℕ, nrowsOf s (some 0) = none) ∧
    (∀ s : ℕ, nrowsOf s none = none) ∧
    extractSheet [("X", [({1, 2} : Finset ℕ)]), ("Y", [{3, 4}])] 50
        [{1, 2}, {3, 4}, {7}, {8}] "s" =
      [("s_table_1", ([0], [1, 2, 3])), ("s_table_2", ([1], [2, 3]))] := by
  refine ⟨fun s => rfl, fun s => rfl, ?_⟩
  with_unfolding_all decide
